import Mathlib

/-!
A shallow embedding of `lung_segmentation/crop.py` (class `ImageCropping`),
together with theorems checking the natural-language specification of the
repository against this embedding.  Machine integers are modelled by `ℤ`/`ℕ`,
Python floats by `ℚ`, and fallible Python code by `Except String` (the string
names the exception class the interpreter would raise).
-/

/-- Python `int(...)` applied to a rational value: truncation towards zero. -/
def pyInt (q : ℚ) : ℤ := if 0 ≤ q then q.floor else -((-q).floor)

/-- `numpy.round` (round half to even) of a rational value, as an integer. -/
def npRound (q : ℚ) : ℤ :=
  if q - q.floor < 1 / 2 then q.floor
  else if 1 / 2 < q - q.floor then q.floor + 1
  else if q.floor % 2 = 0 then q.floor else q.floor + 1

/-! ## Edge Extractor (crop.py lines 179-188)

The extractor receives `uniq = sorted(list(set(x)))`, the sorted distinct
foreground x coordinates of the filtered binary slice. -/

/-- The boundary pairs appended by the loop at crop.py lines 182-185: whenever
two consecutive sorted coordinates are not adjacent, both are emitted. -/
def gapPairs : List ℕ → List ℕ
  | a :: b :: rest =>
    if b ≠ a + 1 then a :: b :: gapPairs (b :: rest) else gapPairs (b :: rest)
  | _ => []

/-- Last element of a coordinate list (Python `xs[-1]`; the default `0` is
never queried by the embedded code, which guards for emptiness first). -/
def lastElem : List ℕ → ℕ
  | [] => 0
  | [a] => a
  | _ :: b :: t => lastElem (b :: t)

/-- crop.py lines 181-186: `xx` starts as `[uniq[0]]`, accumulates the gap
pairs, and finally receives `uniq[-1]`. -/
def xxRaw : List ℕ → List ℕ
  | [] => []
  | u :: us => u :: (gapPairs (u :: us) ++ [lastElem (u :: us)])

/-- Insert a value into a strictly increasing list, keeping it strictly
increasing (a duplicate value is dropped). -/
def insertUnique (x : ℕ) : List ℕ → List ℕ
  | [] => [x]
  | y :: ys =>
    if x < y then x :: y :: ys else if x = y then y :: ys else y :: insertUnique x ys

/-- Python `sorted(list(set(l)))`. -/
def sortedSet (l : List ℕ) : List ℕ := l.foldr insertUnique []

/-- crop.py line 187: the final edge list `xx = sorted(list(set(xx)))`. -/
def edgeList (uniq : List ℕ) : List ℕ := sortedSet (xxRaw uniq)

/-- The x coordinates `[a, a+1, ..., a+w-1]` of a contiguous foreground run. -/
def seg : ℕ → ℕ → List ℕ
  | _, 0 => []
  | a, w + 1 => a :: seg (a + 1) w

/-- Coordinates covered by the run with inclusive extent `[p.1, p.2]`. -/
def runCoords (p : ℕ × ℕ) : List ℕ := seg p.1 (p.2 + 1 - p.1)

/-- Sorted distinct foreground x coordinates of a slice whose foreground is a
list of runs given by their inclusive extents, listed left to right. -/
def runsToUniq (runs : List (ℕ × ℕ)) : List ℕ := runs.flatMap runCoords

/-- The expected edge list of such a slice: start and end of every run. -/
def runBounds (runs : List (ℕ × ℕ)) : List ℕ := runs.flatMap fun p => [p.1, p.2]

/-- Interior boundaries: end of each run followed by start of the next one. -/
def innerBounds : List (ℕ × ℕ) → List ℕ
  | p :: q :: t => p.2 :: q.1 :: innerBounds (q :: t)
  | _ => []

/-- Last run of a run list (`(0, 0)` for the empty list, never queried). -/
def lastPair : List (ℕ × ℕ) → ℕ × ℕ
  | [] => (0, 0)
  | [p] => p
  | _ :: q :: t => lastPair (q :: t)

/-- The runs are separated: at least one background column between any two
consecutive runs. -/
def SepRuns (runs : List (ℕ × ℕ)) : Prop :=
  List.Chain' (fun p q => p.2 + 2 ≤ q.1) runs

/-! ## Connected-Component Filter (crop.py lines 165-174)

`cv2.connectedComponentsWithStats(..., connectivity=8)` is the labelling
oracle: `label p` is the component index of pixel `p` (`0` = background,
components `1 .. nb`), and the area column of its `stats` output for
component `c` is the pixel count of label `c`. -/

/-- Pixel count of label `c` on a `w × h` slice (the area entry
`stats[c, -1]` of `cv2.connectedComponentsWithStats`). -/
def compSize (w h : ℕ) (label : ℕ × ℕ → ℕ) (c : ℕ) : ℕ :=
  ((List.range w).flatMap fun x => (List.range h).map fun y => (x, y)).countP fun p =>
    label p == c

/-- One iteration of the loop at crop.py lines 172-174: component `i + 1`
(whose size is `sizes[i]`) is written into `img2` when its size reaches
`min_size = 100 / space_x`. -/
def ccStep (w h : ℕ) (label : ℕ × ℕ → ℕ) (spaceX : ℚ) (img2 : ℕ × ℕ → ℕ) (i : ℕ) :
    ℕ × ℕ → ℕ :=
  if 100 / spaceX ≤ (compSize w h label (i + 1) : ℚ) then
    fun p => if label p = i + 1 then 1 else img2 p
  else img2

/-- crop.py lines 165-174: `img2` starts as `np.zeros` and the loop ranges
over the `nb` non-background components. -/
def ccFilter (w h : ℕ) (label : ℕ × ℕ → ℕ) (nb : ℕ) (spaceX : ℚ) : ℕ × ℕ → ℕ :=
  (List.range nb).foldl (ccStep w h label spaceX) fun _ => 0

/-! ## Mask-guided cropping: `crop_with_mask` (crop.py lines 48-104) -/

/-- A 3-D voxel array with its shape, as handed out by `nrrd.read`. -/
structure Volume3 where
  s0 : ℕ
  s1 : ℕ
  s2 : ℕ
  data : ℕ → ℕ → ℕ → ℤ

/-- All voxel coordinates of the volume, in row-major order. -/
def Volume3.coordList (v : Volume3) : List (ℕ × ℕ × ℕ) :=
  (List.range v.s0).flatMap fun x =>
    (List.range v.s1).flatMap fun y => (List.range v.s2).map fun z => (x, y, z)

/-- All voxel values of the volume. -/
def Volume3.vals (v : Volume3) : List ℤ := v.coordList.map fun p => v.data p.1 p.2.1 p.2.2

/-- Maximum of a value list (`np.max`; `0` only for an empty volume). -/
def listMaxZ : List ℤ → ℤ
  | [] => 0
  | a :: t => t.foldl max a

/-- Minimum of a value list (`np.min`; `0` only for an empty volume). -/
def listMinZ : List ℤ → ℤ
  | [] => 0
  | a :: t => t.foldl min a

/-- `np.max(maskData)`. -/
def Volume3.maskMax (v : Volume3) : ℤ := listMaxZ v.vals

/-- `np.min(maskData)`. -/
def Volume3.maskMin (v : Volume3) : ℤ := listMinZ v.vals

/-- The coordinates returned by `np.where(maskData == 1)` (crop.py line 67). -/
def Volume3.fgList (v : Volume3) : List (ℕ × ℕ × ℕ) :=
  v.coordList.filter fun p => v.data p.1 p.2.1 p.2.2 == 1

/-- Minimum of a coordinate list (`np.min`; `0` only for the empty list). -/
def listMinN : List ℕ → ℕ
  | [] => 0
  | a :: t => t.foldl min a

/-- Maximum of a coordinate list (`np.max`; `0` only for the empty list). -/
def listMaxN : List ℕ → ℕ
  | [] => 0
  | a :: t => t.foldl max a

/-- crop.py line 78 (etc.): `new[0] = 0 if new[0] < 0 else new[0]`. -/
def clampLo (m : ℕ) (d : ℤ) : ℤ := if (m : ℤ) - d < 0 then 0 else (m : ℤ) - d

/-- crop.py line 79 (etc.): `new[1] = shape if new[1] > shape else new[1]`. -/
def clampHi (m : ℕ) (d : ℤ) (bound : ℕ) : ℤ :=
  if (m : ℤ) + d > (bound : ℤ) then (bound : ℤ) else (m : ℤ) + d

/-- Result of one `crop_with_mask` call.  `invalidMask` is the branch at
lines 71-75 (both output names set to `None`, nothing written);
`emptyFgError` is the `ValueError` that `np.min` raises at line 77 on an
empty coordinate array; `cropped` carries the three half-open voxel ranges
used to slice both volumes, after which both files are written. -/
inductive MaskCropOutcome where
  | invalidMask : MaskCropOutcome
  | emptyFgError : MaskCropOutcome
  | cropped : ℤ × ℤ → ℤ × ℤ → ℤ × ℤ → MaskCropOutcome
deriving DecidableEq

/-- Number of files `crop_with_mask` writes for a given outcome. -/
def filesWritten : MaskCropOutcome → ℕ
  | MaskCropOutcome.cropped _ _ _ => 2
  | _ => 0

/-- Whether both returned output names are `None`. -/
def returnsNullPair : MaskCropOutcome → Bool
  | MaskCropOutcome.invalidMask => true
  | _ => false

/-- Whether the call raises instead of returning. -/
def raisesError : MaskCropOutcome → Bool
  | MaskCropOutcome.emptyFgError => true
  | _ => false

/-- Whether the not-a-mask log message of lines 72-73 is emitted. -/
def logsSkipMessage : MaskCropOutcome → Bool
  | MaskCropOutcome.invalidMask => true
  | _ => false

/-- crop.py lines 48-104, `crop_with_mask`: margins `int(10 / spacing)` per
axis, validity check `np.max > 1 and np.min < 0`, bounding box of the
`mask == 1` voxels expanded by the margins and clamped against the image
shape.  File paths and headers are irrelevant to the claims and omitted. -/
def crop_with_mask (mask : Volume3) (imgS0 imgS1 imgS2 : ℕ) (sx sy sz : ℚ) :
    MaskCropOutcome :=
  let dx := pyInt (10 / sx)
  let dy := pyInt (10 / sy)
  let dz := pyInt (10 / sz)
  let fg := mask.fgList
  if 1 < mask.maskMax ∧ mask.maskMin < 0 then MaskCropOutcome.invalidMask
  else if fg = [] then MaskCropOutcome.emptyFgError
  else
    let xs := fg.map fun p => p.1
    let ys := fg.map fun p => p.2.1
    let zs := fg.map fun p => p.2.2
    MaskCropOutcome.cropped
      (clampLo (listMinN xs) dx, clampHi (listMaxN xs) dx imgS0)
      (clampLo (listMinN ys) dy, clampHi (listMaxN ys) dy imgS1)
      (clampLo (listMinN zs) dz, clampHi (listMaxN zs) dz imgS2)

/-- The half-open crop box contains voxel `p`. -/
def boxContains (b : (ℤ × ℤ) × (ℤ × ℤ) × (ℤ × ℤ)) (p : ℕ × ℕ × ℕ) : Prop :=
  b.1.1 ≤ (p.1 : ℤ) ∧ (p.1 : ℤ) < b.1.2 ∧
  b.2.1.1 ≤ (p.2.1 : ℤ) ∧ (p.2.1 : ℤ) < b.2.1.2 ∧
  b.2.2.1 ≤ (p.2.2 : ℤ) ∧ (p.2.2 : ℤ) < b.2.2.2

/-- The specification's guarantee for a successful mask-guided crop: the crop
box contains every foreground voxel and stays within the volume extents; any
non-`cropped` outcome violates it. -/
def outcomeOK (o : MaskCropOutcome) (fg : List (ℕ × ℕ × ℕ)) (d0 d1 d2 : ℕ) : Prop :=
  match o with
  | MaskCropOutcome.cropped bx bY bz =>
    (∀ p ∈ fg, boxContains (bx, bY, bz) p) ∧
    0 ≤ bx.1 ∧ bx.2 ≤ (d0 : ℤ) ∧ 0 ≤ bY.1 ∧ bY.2 ≤ (d1 : ℤ) ∧
    0 ≤ bz.1 ∧ bz.2 ≤ (d2 : ℤ)
  | _ => False

/-! ## Mask-free cropping: `crop_wo_mask` (crop.py lines 106-331)

The image content only enters the detection loop through the per-slice
detection results (threshold, y-cut and connected-component filter applied to
one slice).  A `ScanOracle` packages them: `uniqAt angle slice` is the sorted
distinct foreground x coordinate list of the filtered binary slice at depth
index `slice` of the volume rotated by `angle`, and `maxYAt angle slice` is
`np.max(y)` of the same slice (queried only when the slice has foreground). -/

structure ScanOracle where
  uniqAt : ℤ → ℤ → List ℕ
  maxYAt : ℤ → ℤ → ℕ

/-- Geometry of an input volume: shape and voxel spacing, from the header. -/
structure Geometry where
  dimX : ℕ
  dimY : ℕ
  dimZ : ℕ
  spaceX : ℚ
  spaceY : ℚ
  spaceZ : ℚ

/-- crop.py line 127: `min_first_edge = int(63 / space_x)`. -/
def minFirstEdge (g : Geometry) : ℤ := pyInt (63 / g.spaceX)

/-- crop.py line 128: `min_last_edge = im.shape[0] - int(63 / space_x)`. -/
def minLastEdge (g : Geometry) : ℤ := (g.dimX : ℤ) - pyInt (63 / g.spaceX)

/-- crop.py lines 130-132: `min_size_x`, clamped to the shape. -/
def minSizeXg (g : Geometry) : ℤ := min (pyInt (17 / g.spaceX)) (g.dimX : ℤ)

/-- crop.py lines 133-135: `min_size_y`, clamped to the shape. -/
def minSizeYg (g : Geometry) : ℕ := min (pyInt (30 / g.spaceY)).toNat g.dimY

/-- crop.py lines 137-139: `min_size_z`, clamped to the shape. -/
def minSizeZg (g : Geometry) : ℕ := min (pyInt (45 / g.spaceZ)).toNat g.dimZ

/-- crop.py lines 124, 133-136: `indY` starts as `None` unless
`min_size_y > im.shape[1]`, in which case it is preset to `im.shape[1]`. -/
def indY0 (g : Geometry) : Option ℕ :=
  if pyInt (30 / g.spaceY) > (g.dimY : ℤ) then some g.dimY else none

/-- crop.py line 143: `mean_Z = int(np.ceil(dimZ / 2))`. -/
def meanZ0 (g : Geometry) : ℤ := (((g.dimZ + 1) / 2 : ℕ) : ℤ)

/-- crop.py line 156: the five depth offsets inspected per scan. -/
def offsets : List ℤ := [20, 10, 0, -10, -15]

/-- One scan of the five offsets (crop.py lines 156-190), folding over the
state `(n_mice_detected, indY, xx)`: an all-background slice appends a `0`
count (line 190); otherwise `xx` becomes the slice's edge list, the count
`len(xx) // 2` is appended (line 188), and `indY` is set from `np.max(y)` the
first time the centre offset has foreground (lines 177-178). -/
def scanOnce (o : ScanOracle) (angle meanZ : ℤ) (indY : Option ℕ)
    (xx : Option (List ℕ)) : List ℕ × Option ℕ × Option (List ℕ) :=
  offsets.foldl
    (fun st offset =>
      let uniq := o.uniqAt angle (meanZ + offset)
      if uniq = [] then (st.1 ++ [0], st.2)
      else
        let indY2 := match st.2.1 with
          | none => if offset = 0 then some (o.maxYAt angle (meanZ + offset)) else none
          | some v => some v
        let xx2 := edgeList uniq
        (st.1 ++ [xx2.length / 2], indY2, some xx2))
    ([], indY, xx)

/-- crop.py line 191: the detected counts are stable when their set has one
element, or two elements one of which is `0`. -/
def stableCheck (n : List ℕ) : Bool :=
  n.dedup.length == 1 || (n.dedup.length == 2 && n.contains 0)

/-- State of the orientation-correction loop (crop.py lines 149-211).  The
field `process` is read by line 213; `proccess` is the misspelt variable that
line 210 actually assigns. -/
structure WoState where
  counter : ℕ
  angle : ℤ
  meanZ : ℤ
  indY : Option ℕ
  xx : Option (List ℕ)
  process : Bool
  proccess : Bool

/-- The `while not_correct` loop of crop.py lines 153-211.  The structural
fuel equals the remaining retry budget `8 - counter`, so the source guard
`counter < 8` (line 193) is exactly `fuel > 0`; it is instantiated below with
fuel `8 - counter`.  A retry (lines 194-205) decrements the angle by 2,
resets `n_mice_detected` and `indY`, rotates a freshly reloaded volume (the
oracle depends on the angle), and shifts `mean_Z` by -10 on every second
retry.  On exhaustion (lines 206-211) the code assigns the misspelt
`proccess = False`, leaving `process` untouched. -/
def orientGo (o : ScanOracle) : ℕ → WoState → WoState
  | 0, st =>
    let s := scanOnce o st.angle st.meanZ st.indY st.xx
    if stableCheck s.1 then { st with indY := s.2.1, xx := s.2.2 }
    else { st with indY := s.2.1, xx := s.2.2, proccess := false }
  | k + 1, st =>
    let s := scanOnce o st.angle st.meanZ st.indY st.xx
    if stableCheck s.1 then { st with indY := s.2.1, xx := s.2.2 }
    else
      orientGo o k
        { counter := st.counter + 1
          angle := st.angle - 2
          meanZ := if (st.counter + 1) % 2 = 0 then st.meanZ - 10 else st.meanZ
          indY := none
          xx := s.2.2
          process := st.process
          proccess := st.proccess }

/-- The orientation loop run with its full remaining retry budget. -/
def orientLoop (o : ScanOracle) (st : WoState) : WoState :=
  orientGo o (8 - st.counter) st

/-- Loop state on entry (crop.py lines 123-152). -/
def initState (g : Geometry) : WoState :=
  { counter := 0, angle := 0, meanZ := meanZ0 g, indY := indY0 g, xx := none,
    process := true, proccess := true }

/-! ### The naming stage (crop.py lines 219-310) -/

def errIndex : String := "IndexError"

def errValue : String := "ValueError"

def errName : String := "NameError"

def errType : String := "TypeError"

/-- Python list subscription `l[i]` for a non-negative index. -/
def getE {α : Type} (l : List α) (i : ℕ) : Except String α :=
  match l.get? i with
  | some a => Except.ok a
  | none => Except.error errIndex

/-- Python `list.remove(x)`: drops the first occurrence of `x`, raising
`ValueError` when `x` is absent. -/
def listRemove (l : List String) (x : String) : Except String (List String) :=
  if x ∈ l then Except.ok (l.erase x) else Except.error errValue

/-- crop.py lines 19-20. -/
def MOUSE_NAMES : List String :=
  ["mouse_01", "mouse_02", "mouse_03", "mouse_04", "mouse_05", "mouse_06"]

def mouse01 : String := "mouse_01"

def mouse06 : String := "mouse_06"

/-- One iteration of the inter-mouse gap loop (crop.py lines 273-291) over
the state `(image_names, hole_found, mouse_distances)`.  `ii = (i, ind)` is
the enumerated index pair of `range(1, len(xx) - 1, 2)`.  The reads of
`image_names[i]` (line 274) and `image_names[i + 1]` (line 285, inside the
log call) are kept because they can raise `IndexError`.  When
`hole_dimension = int(np.round(distance / (min_size_x * 1.5)))` is at least
2, the `hole_dimension - 1` names following position `i` are removed, but
`hole_found` is increased by only 1 (line 291). -/
def gapStep (xx : List ℕ) (minSizeX : ℤ) (st : List String × ℤ × List ℤ)
    (ii : ℕ × ℕ) : Except String (List String × ℤ × List ℤ) := do
  let names := st.1
  let _mouseIndex ← getE names ii.1
  let a ← getE xx ii.2
  let b ← getE xx (ii.2 + 1)
  let distance : ℤ := (b : ℤ) - (a : ℤ)
  let dists := st.2.2 ++ [distance]
  let hd := npRound ((distance : ℚ) / ((minSizeX : ℚ) * (3 / 2)))
  if 2 ≤ hd then do
    let _next ← getE names (ii.1 + 1)
    let ns ← (List.range (hd - 1).toNat).mapM fun m => getE names (ii.1 + m + 1)
    let names2 ← List.foldlM listRemove names ns
    pure (names2, st.2.1 + 1, dists)
  else
    pure (names, st.2.1, dists)

/-- One iteration of the final reconciliation loop (crop.py lines 301-305)
over the state `(mouse_distances, names2remove)`: find the first index of the
largest remaining distance (`np.max` raises `ValueError` on an empty array),
record `image_names[max_distance + 1]`, zero that distance. -/
def balStep (names : List String) (st : List ℤ × List String) (_i : ℕ) :
    Except String (List ℤ × List String) := do
  match st.1 with
  | [] => Except.error errValue
  | a :: t =>
    let mx := List.foldl max a t
    let idx := (a :: t).findIdx fun x => x == mx
    let nm ← getE names (idx + 1)
    pure ((a :: t).set idx 0, st.2 ++ [nm])

/-- The Subject Count Reconciler: crop.py lines 226-307 (`accurate_naming`
branch), as a function of the final edge list and the geometric constants.
Phases in source order: missing-left (233-244) and missing-right (245-256)
edge checks collecting `names2remove` from the *unmodified* roster, the
removal loop (257-258), the too-small-span single removal (259-270), the
inter-mouse gap loop (271-291), and the final reconciliation (292-307). -/
def accurateNaming (xx : List ℕ) (minFirst minLast minSizeX : ℤ) :
    Except String (List String) := do
  let firstEdge ← getE xx 0
  let lastEdge ← getE xx (xx.length - 1)
  let leftInfo ←
    if minFirst < (firstEdge : ℤ) then
      let ml := npRound ((((firstEdge : ℤ) - minFirst : ℤ) : ℚ) / ((minSizeX : ℚ) * 2))
      if 0 < ml then do
        let ns ← (List.range ml.toNat).mapM fun m => getE MOUSE_NAMES m
        pure (ns, ml, true)
      else pure (([] : List String), (0 : ℤ), false)
    else pure (([] : List String), (0 : ℤ), false)
  let rightInfo ←
    if (lastEdge : ℤ) < minLast then
      let mr := npRound (((minLast - (lastEdge : ℤ) : ℤ) : ℚ) / ((minSizeX : ℚ) * 2))
      if 0 < mr then do
        let ns ← (List.range mr.toNat).mapM fun m =>
          if m + 1 ≤ MOUSE_NAMES.length then getE MOUSE_NAMES (MOUSE_NAMES.length - 1 - m)
          else Except.error errIndex
        pure (ns, mr, true)
      else pure (([] : List String), (0 : ℤ), false)
    else pure (([] : List String), (0 : ℤ), false)
  let names1 ← List.foldlM listRemove MOUSE_NAMES (leftInfo.1 ++ rightInfo.1)
  let hole0 : ℤ := leftInfo.2.1 + rightInfo.2.1
  let missingAtEdge : Bool := leftInfo.2.2 || rightInfo.2.2
  let step2 ←
    if ((lastEdge : ℚ) - (firstEdge : ℚ) <
          6 * (minSizeX : ℚ) + 5 * ((minSizeX : ℚ) / (13 / 10))) ∧ missingAtEdge = false then
      if minLast - (lastEdge : ℤ) ≤ (firstEdge : ℤ) - minFirst then do
        let n ← listRemove names1 mouse01
        pure (n, hole0 + 1)
      else do
        let n ← listRemove names1 mouse06
        pure (n, hole0 + 1)
    else pure (names1, hole0)
  let gapIdx := (List.range ((xx.length - 1) / 2)).map fun i => (i, 2 * i + 1)
  let g ← List.foldlM (gapStep xx minSizeX) (step2.1, step2.2, ([] : List ℤ)) gapIdx
  if g.2.1 + ((xx.length / 2 : ℕ) : ℤ) ≠ 6 then do
    let still := 6 - (g.2.1 + ((xx.length / 2 : ℕ) : ℤ))
    let bal ← List.foldlM (balStep g.1) (g.2.2, ([] : List String)) (List.range still.toNat)
    List.foldlM listRemove g.1 bal.2
  else pure g.1

/-- crop.py line 310: `'subject_0{}'.format(x + 1)`. -/
def subjectName (i : ℕ) : String := "subject_0" ++ toString (i + 1)

/-! ### The output stage (crop.py lines 312-328) -/

/-- The index pairs `(xx[i], xx[i + 1])` for `i in range(0, len(xx), 2)`,
for an even-length list. -/
def pairList : List ℕ → List (ℕ × ℕ)
  | a :: b :: rest => (a, b) :: pairList rest
  | _ => []

/-- The half-open voxel ranges used by the slicing at crop.py lines 315-317:
`[xx[i], xx[i+1])` in x, `[y0, indY)` in y with
`y0 = indY - min_size_y if positive else 0`, and
`[mean_Z - min_size_z // 2, mean_Z + min_size_z // 2)` in z. -/
def cropSliceBounds (p : ℕ × ℕ) (indY : ℕ) (minSizeY : ℕ) (meanZ : ℤ)
    (minSizeZ : ℕ) : (ℤ × ℤ) × (ℤ × ℤ) × (ℤ × ℤ) :=
  (((p.1 : ℤ), (p.2 : ℤ)),
   ((if (indY : ℤ) - (minSizeY : ℤ) > 0 then (indY : ℤ) - (minSizeY : ℤ) else 0),
    (indY : ℤ)),
   (meanZ - ((minSizeZ / 2 : ℕ) : ℤ), meanZ + ((minSizeZ / 2 : ℕ) : ℤ)))

/-- The output loop of crop.py lines 312-328, producing one record per region
pair: the y window is computed first (line 315, `TypeError` when `indY` is
still `None`), then `image_names[n_mice]` is subscripted (line 323,
`IndexError` when the reconciled list is too short). -/
def cropGo (names : List String) (indY : Option ℕ) (minSizeY : ℕ) (meanZ : ℤ)
    (minSizeZ : ℕ) :
    List (ℕ × ℕ) → ℕ → Except String (List (String × ((ℤ × ℤ) × (ℤ × ℤ) × (ℤ × ℤ))))
  | [], _ => Except.ok []
  | p :: rest, n =>
    match indY with
    | none => Except.error errType
    | some iY =>
      match names.get? n with
      | none => Except.error errIndex
      | some nm => do
        let tl ← cropGo names indY minSizeY meanZ minSizeZ rest (n + 1)
        Except.ok ((nm, cropSliceBounds p iY minSizeY meanZ minSizeZ) :: tl)

/-- crop.py lines 213-328 after the orientation loop: when `process` is still
true, `len(xx)` is evaluated (a `NameError` when no slice ever had
foreground, since `xx` was then never assigned); an odd-length `xx` loses its
last element (lines 219-225, `xx.remove(xx[-1])` on the duplicate-free sorted
list); the naming stage produces `image_names`; the output loop emits the
records.  When `process` is false the loop body is skipped and the empty
`out` list is returned. -/
def postPhase (g : Geometry) (accNaming : Bool) (st : WoState) :
    Except String (List (String × ((ℤ × ℤ) × (ℤ × ℤ) × (ℤ × ℤ)))) :=
  if st.process then
    match st.xx with
    | none => Except.error errName
    | some xx0 =>
      let xx1 := if xx0.length % 2 ≠ 0 then xx0.dropLast else xx0
      match (if accNaming then accurateNaming xx1 (minFirstEdge g) (minLastEdge g) (minSizeXg g)
             else Except.ok ((List.range (xx1.length / 2)).map subjectName)) with
      | Except.error e => Except.error e
      | Except.ok names =>
        cropGo names st.indY (minSizeYg g) st.meanZ (minSizeZg g) (pairList xx1) 0
  else Except.ok []

/-- The whole of `crop_wo_mask`: orientation loop followed by the naming and
output stages.  The result is the `out` list of the source (one entry per
written volume, paired here with its slice bounds), or the exception the
interpreter would raise. -/
def crop_wo_mask_model (g : Geometry) (o : ScanOracle) (accNaming : Bool) :
    Except String (List (String × ((ℤ × ℤ) × (ℤ × ℤ) × (ℤ × ℤ)))) :=
  postPhase g accNaming (orientLoop o (initState g))

/-- All six slice bounds lie within the volume extents. -/
def boundsInRange (b : (ℤ × ℤ) × (ℤ × ℤ) × (ℤ × ℤ)) (dims : ℕ × ℕ × ℕ) : Prop :=
  0 ≤ b.1.1 ∧ b.1.2 ≤ (dims.1 : ℤ) ∧ 0 ≤ b.2.1.1 ∧ b.2.1.2 ≤ (dims.2.1 : ℤ) ∧
  0 ≤ b.2.2.1 ∧ b.2.2.2 ≤ (dims.2.2 : ℤ)

/-- The x and y slice bounds lie within the corresponding extents. -/
def xyInRange (b : (ℤ × ℤ) × (ℤ × ℤ) × (ℤ × ℤ)) (dX dY : ℕ) : Prop :=
  0 ≤ b.1.1 ∧ b.1.2 ≤ (dX : ℤ) ∧ 0 ≤ b.2.1.1 ∧ b.2.1.2 ≤ (dY : ℤ)


/-! ## Concrete instances used by the claim theorems -/

/-- An edge list with four detected regions reachable at the naming stage:
four foreground runs `[63,83] [159,179] [209,229] [259,567]` of a 630-wide
slice with unit spacing (`min_first_edge = 63`, `min_last_edge = 567`,
`min_size_x = 17`).  The 76-voxel gap between the first two runs has
`hole_dimension = round(76 / 25.5) = 3`. -/
def xxC1 : List ℕ := [63, 83, 159, 179, 209, 229, 259, 567]

/-- A 630 × 100 × 42 volume with unit spacing. -/
def g2 : Geometry := ⟨630, 100, 42, 1, 1, 1⟩

/-- A detection oracle that never stabilises: slices of even index show one
run, slices of odd index two, and the five offsets always mix both
parities, so every scan reports the count set `{1, 2}`. -/
def o2 : ScanOracle :=
  ⟨fun _ s => if s % 2 = 0 then [0, 1] else [0, 1, 10, 11], fun _ _ => 50⟩

/-- A 100 × 100 × 50 volume with unit spacing. -/
def g3 : Geometry := ⟨100, 100, 50, 1, 1, 1⟩

/-- The all-background detection oracle: no thresholded slice has any
foreground voxel at any offset. -/
def o3 : ScanOracle := ⟨fun _ _ => [], fun _ _ => 0⟩

/-- A 100 × 100 × 42 volume with `space_z = 1.5`, so `min_size_z = 30`. -/
def g4 : Geometry := ⟨100, 100, 42, 1, 1, 3 / 2⟩

/-- An oracle whose counts disagree at angles `0` and `-2` (slice 41 shows
one run, the others two) and agree after the third rotation (angle `-4`):
the loop stabilises at `counter = 2`, after `mean_Z` was shifted by 10. -/
def o4 : ScanOracle :=
  ⟨fun a s => if a = -4 then [0, 3] else if s = 41 then [0, 3] else [0, 3, 10, 13],
   fun _ _ => 80⟩

/-- A 3 × 3 × 3 binary mask whose only foreground voxel is `(1,1,1)`. -/
def mask3 : Volume3 := ⟨3, 3, 3, fun x y z => if x = 1 ∧ y = 1 ∧ z = 1 then 1 else 0⟩

/-- A two-voxel volume with values `2` and `-1`: `np.max > 1` and
`np.min < 0` hold simultaneously, so it is not plausibly a binary mask. -/
def maskBad : Volume3 := ⟨2, 1, 1, fun x _ _ => if x = 0 then 2 else -1⟩

/-- An all-zero 2 × 2 × 2 mask: it passes the plausibly-binary check but has
no voxel equal to 1. -/
def maskZero : Volume3 := ⟨2, 2, 2, fun _ _ _ => 0⟩

/-! ## Theorems -/

lemma insertUnique_of_lt_head {x : ℕ} {l : List ℕ}
    (h : ∀ y ∈ l.head?, x < y) : insertUnique x l = x :: l := by
  cases l with
  | nil => rfl
  | cons y ys =>
    have hy : x < y := h y rfl
    simp [insertUnique, hy]

lemma sortedSet_eq_self {l : List ℕ} (h : List.Chain' (· < ·) l) : sortedSet l = l := by
  induction l with
  | nil => rfl
  | cons x t ih =>
    have ht := (List.chain'_cons'.mp h).2
    have hx := (List.chain'_cons'.mp h).1
    show insertUnique x (sortedSet t) = x :: t
    rw [ih ht]
    exact insertUnique_of_lt_head hx

lemma mem_insertUnique {a x : ℕ} {l : List ℕ} :
    a ∈ insertUnique x l ↔ a = x ∨ a ∈ l := by
  induction l with
  | nil => simp [insertUnique]
  | cons y ys ih =>
    by_cases h1 : x < y
    · simp [insertUnique, h1]
    · by_cases h2 : x = y
      · subst h2
        simp [insertUnique, h1]
      · simp [insertUnique, h1, h2, ih]
        tauto

lemma mem_sortedSet {a : ℕ} {l : List ℕ} : a ∈ sortedSet l ↔ a ∈ l := by
  induction l with
  | nil => simp [sortedSet]
  | cons x t ih =>
    show a ∈ insertUnique x (sortedSet t) ↔ _
    rw [mem_insertUnique, ih]
    simp

lemma gapPairs_seg (w a : ℕ) : gapPairs (seg a w) = [] := by
  induction w generalizing a with
  | zero => rfl
  | succ n ih =>
    cases n with
    | zero => rfl
    | succ m =>
      show gapPairs (a :: (a + 1) :: seg (a + 2) m) = []
      rw [gapPairs]
      simp only [if_neg (by omega : ¬ (a + 1 ≠ a + 1))]
      exact ih (a + 1)

lemma gapPairs_seg_append {c : ℕ} {rest : List ℕ} (hrest : rest.head? = some c) :
    ∀ w a, 0 < w → a + w + 1 ≤ c →
      gapPairs (seg a w ++ rest) = (a + w - 1) :: c :: gapPairs rest := by
  intro w
  induction w with
  | zero => omega
  | succ n ih =>
    intro a _ hc
    cases n with
    | zero =>
      cases rest with
      | nil => simp at hrest
      | cons r t =>
        have hrc : r = c := by simpa using hrest
        show gapPairs (a :: r :: t) = (a + 1 - 1) :: c :: gapPairs (r :: t)
        rw [gapPairs]
        simp only [if_pos (by omega : r ≠ a + 1)]
        simp [hrc]
    | succ m =>
      show gapPairs (seg a (m + 2) ++ rest) = (a + (m + 2) - 1) :: c :: gapPairs rest
      have hstep : seg a (m + 2) ++ rest = a :: ((a + 1) :: (seg (a + 2) m ++ rest)) := rfl
      rw [hstep, gapPairs]
      simp only [if_neg (by omega : ¬ (a + 1 ≠ a + 1))]
      have h2 := ih (a + 1) (by omega) (by omega)
      have hstep2 : seg (a + 1) (m + 1) ++ rest = (a + 1) :: (seg (a + 2) m ++ rest) := rfl
      rw [hstep2] at h2
      rw [h2]
      congr 1
      omega

lemma runsToUniq_cons_head {q : ℕ × ℕ} {t : List (ℕ × ℕ)} (hq : q.1 ≤ q.2) :
    ∃ s, runsToUniq (q :: t) = q.1 :: s := by
  have hw : q.2 + 1 - q.1 = (q.2 - q.1) + 1 := by omega
  refine ⟨seg (q.1 + 1) (q.2 - q.1) ++ runsToUniq t, ?_⟩
  show runCoords q ++ runsToUniq t = _
  rw [runCoords, hw]
  rfl

lemma gapPairs_runsToUniq :
    ∀ runs : List (ℕ × ℕ), (∀ p ∈ runs, p.1 ≤ p.2) → SepRuns runs →
      gapPairs (runsToUniq runs) = innerBounds runs := by
  intro runs
  induction runs with
  | nil => intro _ _; rfl
  | cons p rest ih =>
    intro hw hs
    cases rest with
    | nil =>
      show gapPairs (runCoords p ++ []) = []
      rw [List.append_nil, runCoords]
      exact gapPairs_seg _ _
    | cons q t =>
      have hp : p.1 ≤ p.2 := hw p (by simp)
      have hq : q.1 ≤ q.2 := hw q (by simp)
      have hsep : p.2 + 2 ≤ q.1 := (List.chain'_cons.mp hs).1
      obtain ⟨s, hqs⟩ := runsToUniq_cons_head (t := t) hq
      have hrest : (runsToUniq (q :: t)).head? = some q.1 := by rw [hqs]; rfl
      have hmain := gapPairs_seg_append hrest (p.2 + 1 - p.1) p.1 (by omega) (by omega)
      show gapPairs (runCoords p ++ runsToUniq (q :: t)) = _
      rw [runCoords, hmain]
      have hih := ih (fun r hr => hw r (List.mem_cons_of_mem p hr)) (List.chain'_cons.mp hs).2
      rw [hih]
      show (p.1 + (p.2 + 1 - p.1) - 1) :: q.1 :: innerBounds (q :: t) =
        p.2 :: q.1 :: innerBounds (q :: t)
      congr 2
      omega

lemma lastElem_cons_cons (a b : ℕ) (t : List ℕ) :
    lastElem (a :: b :: t) = lastElem (b :: t) := rfl

lemma lastElem_append (l : List ℕ) {m : List ℕ} (hm : m ≠ []) :
    lastElem (l ++ m) = lastElem m := by
  induction l with
  | nil => rfl
  | cons a t ih =>
    have : t ++ m ≠ [] := by
      cases m with
      | nil => exact absurd rfl hm
      | cons b s => simp
    cases hs : t ++ m with
    | nil => exact absurd hs this
    | cons b s =>
      show lastElem (a :: (t ++ m)) = lastElem m
      rw [hs, lastElem_cons_cons, ← hs, ih]

lemma lastElem_seg : ∀ w a, 0 < w → lastElem (seg a w) = a + w - 1 := by
  intro w
  induction w with
  | zero => omega
  | succ n ih =>
    intro a _
    cases n with
    | zero => show a = a + 1 - 1; omega
    | succ m =>
      show lastElem (a :: seg (a + 1) (m + 1)) = a + (m + 2) - 1
      have hexp : seg (a + 1) (m + 1) = (a + 1) :: seg (a + 2) m := rfl
      rw [hexp, lastElem_cons_cons, ← hexp, ih (a + 1) (by omega)]
      omega

lemma runsToUniq_ne_nil {q : ℕ × ℕ} {t : List (ℕ × ℕ)} (hq : q.1 ≤ q.2) :
    runsToUniq (q :: t) ≠ [] := by
  obtain ⟨s, hqs⟩ := runsToUniq_cons_head (t := t) hq
  rw [hqs]
  simp

lemma lastElem_runsToUniq :
    ∀ runs : List (ℕ × ℕ), runs ≠ [] → (∀ p ∈ runs, p.1 ≤ p.2) →
      lastElem (runsToUniq runs) = (lastPair runs).2 := by
  intro runs
  induction runs with
  | nil => intro h; exact absurd rfl h
  | cons p rest ih =>
    intro _ hw
    cases rest with
    | nil =>
      have hp : p.1 ≤ p.2 := hw p (by simp)
      show lastElem (runCoords p ++ []) = p.2
      rw [List.append_nil, runCoords, lastElem_seg _ _ (by omega)]
      omega
    | cons q t =>
      have hq : q.1 ≤ q.2 := hw q (by simp)
      show lastElem (runCoords p ++ runsToUniq (q :: t)) = (lastPair (q :: t)).2
      rw [lastElem_append _ (runsToUniq_ne_nil hq)]
      exact ih (by simp) fun r hr => hw r (List.mem_cons_of_mem p hr)

lemma cons_inner_last :
    ∀ (r : ℕ × ℕ) (rs : List (ℕ × ℕ)),
      r.1 :: (innerBounds (r :: rs) ++ [(lastPair (r :: rs)).2]) = runBounds (r :: rs) := by
  intro r rs
  induction rs generalizing r with
  | nil => simp [innerBounds, lastPair, runBounds]
  | cons q t ih =>
    show r.1 :: ((r.2 :: q.1 :: innerBounds (q :: t)) ++ [(lastPair (q :: t)).2]) = _
    have hrb : runBounds (r :: q :: t) = r.1 :: r.2 :: runBounds (q :: t) := rfl
    rw [hrb, ← ih q]
    rfl

lemma xxRaw_runs (runs : List (ℕ × ℕ)) (hne : runs ≠ [])
    (hw : ∀ p ∈ runs, p.1 ≤ p.2) (hs : SepRuns runs) :
    xxRaw (runsToUniq runs) = runBounds runs := by
  cases runs with
  | nil => exact absurd rfl hne
  | cons r rs =>
    have hr : r.1 ≤ r.2 := hw r (by simp)
    obtain ⟨s, hqs⟩ := runsToUniq_cons_head (t := rs) hr
    rw [hqs, xxRaw, ← hqs, gapPairs_runsToUniq _ hw hs,
      lastElem_runsToUniq _ hne hw]
    exact cons_inner_last r rs

lemma chain_runBounds :
    ∀ runs : List (ℕ × ℕ), (∀ p ∈ runs, p.1 < p.2) → SepRuns runs →
      List.Chain' (· < ·) (runBounds runs) := by
  intro runs
  induction runs with
  | nil => intro _ _; simp [runBounds]
  | cons r rs ih =>
    intro hw hs
    have hr : r.1 < r.2 := hw r (by simp)
    cases rs with
    | nil =>
      show List.Chain' (· < ·) [r.1, r.2]
      simp [hr]
    | cons q t =>
      have hsep : r.2 + 2 ≤ q.1 := (List.chain'_cons.mp hs).1
      have hq : q.1 < q.2 := hw q (by simp)
      have hih := ih (fun p hp => hw p (List.mem_cons_of_mem r hp)) (List.chain'_cons.mp hs).2
      have hexp : runBounds (r :: q :: t) = r.1 :: r.2 :: runBounds (q :: t) := rfl
      have hexp2 : runBounds (q :: t) = q.1 :: q.2 :: runBounds t := rfl
      rw [hexp, List.chain'_cons]
      refine ⟨hr, ?_⟩
      rw [hexp2] at hih ⊢
      rw [List.chain'_cons]
      exact ⟨by omega, hih⟩

lemma edgeList_runs (runs : List (ℕ × ℕ)) (hne : runs ≠ [])
    (hw : ∀ p ∈ runs, p.1 < p.2) (hs : SepRuns runs) :
    edgeList (runsToUniq runs) = runBounds runs := by
  rw [edgeList, xxRaw_runs runs hne (fun p hp => le_of_lt (hw p hp)) hs]
  exact sortedSet_eq_self (chain_runBounds runs hw hs)

lemma runBounds_length (runs : List (ℕ × ℕ)) :
    (runBounds runs).length = 2 * runs.length := by
  induction runs with
  | nil => rfl
  | cons r rs ih =>
    show ((r.1 :: r.2 :: runBounds rs)).length = 2 * (rs.length + 1)
    simp [ih]
    omega

lemma mem_edgeList_head (u : ℕ) (us : List ℕ) : u ∈ edgeList (u :: us) := by
  rw [edgeList]
  exact mem_sortedSet.mpr (by simp [xxRaw])

lemma mem_edgeList_last (u : ℕ) (us : List ℕ) : lastElem (u :: us) ∈ edgeList (u :: us) := by
  rw [edgeList]
  refine mem_sortedSet.mpr ?_
  show lastElem (u :: us) ∈ u :: (gapPairs (u :: us) ++ [lastElem (u :: us)])
  exact List.mem_cons_of_mem u (List.mem_append_right _ (by simp))

/-- C7: a filtered binary slice whose foreground consists of three separated
20-voxel-wide runs yields exactly 6 boundary coordinates, the three
(start, end) pairs matching the runs' true x extents; more generally, for
separated runs of width at least two the extracted boundary list equals the
concatenation of the (start, end) pairs and has even length, and for any
nonempty foreground the first and last foreground coordinates are always
included in the extracted list. -/
theorem claim_C7 :
    (∀ a b c : ℕ, 1 ≤ a → a + 21 ≤ b → b + 21 ≤ c →
      edgeList (runsToUniq [(a, a + 19), (b, b + 19), (c, c + 19)]) =
        [a, a + 19, b, b + 19, c, c + 19]) ∧
    (∀ runs : List (ℕ × ℕ), runs ≠ [] → (∀ p ∈ runs, p.1 < p.2) → SepRuns runs →
      edgeList (runsToUniq runs) = runBounds runs ∧
        (edgeList (runsToUniq runs)).length % 2 = 0) ∧
    (∀ (u : ℕ) (us : List ℕ),
      u ∈ edgeList (u :: us) ∧ lastElem (u :: us) ∈ edgeList (u :: us)) := by
  refine ⟨?_, ?_, fun u us => ⟨mem_edgeList_head u us, mem_edgeList_last u us⟩⟩
  · intro a b c _ hab hbc
    have hw : ∀ p ∈ [(a, a + 19), (b, b + 19), (c, c + 19)], p.1 < p.2 := by
      intro p hp
      simp only [List.mem_cons, List.not_mem_nil, or_false] at hp
      rcases hp with rfl | rfl | rfl <;> omega
    have hs : SepRuns [(a, a + 19), (b, b + 19), (c, c + 19)] := by
      rw [SepRuns, List.chain'_cons, List.chain'_cons]
      exact ⟨by omega, by omega, List.chain'_singleton _⟩
    rw [edgeList_runs _ (by simp) hw hs]
    rfl
  · intro runs hne hw hs
    refine ⟨edgeList_runs runs hne hw hs, ?_⟩
    rw [edgeList_runs runs hne hw hs, runBounds_length]
    omega

/-- Witness for C7 at the concrete runs `[1,20] [22,41] [43,62]`, the run
pair `[(0,2),(5,9)]`, and the foreground coordinates `1 :: [2, 7]`. -/
theorem claim_C7_witness :
    edgeList (runsToUniq [(1, 1 + 19), (22, 22 + 19), (43, 43 + 19)]) =
      [1, 1 + 19, 22, 22 + 19, 43, 43 + 19] ∧
    (edgeList (runsToUniq [(0, 2), (5, 9)])).length % 2 = 0 ∧
    1 ∈ edgeList (1 :: [2, 7]) := by
  refine ⟨claim_C7.1 1 22 43 (by omega) (by omega) (by omega), ?_, (claim_C7.2.2 1 [2, 7]).1⟩
  refine (claim_C7.2.1 [(0, 2), (5, 9)] (by simp) ?_ ?_).2
  · intro p hp
    simp only [List.mem_cons, List.not_mem_nil, or_false] at hp
    rcases hp with rfl | rfl <;> omega
  · rw [SepRuns, List.chain'_cons]
    exact ⟨by omega, List.chain'_singleton _⟩

lemma ccFilter_aux (w h : ℕ) (label : ℕ × ℕ → ℕ) (spaceX : ℚ) :
    ∀ (n : ℕ) (f : ℕ × ℕ → ℕ) (p : ℕ × ℕ),
      (List.range n).foldl (ccStep w h label spaceX) f p =
        if 1 ≤ label p ∧ label p ≤ n ∧
            100 / spaceX ≤ (compSize w h label (label p) : ℚ) then 1 else f p := by
  intro n
  induction n with
  | zero =>
    intro f p
    rw [if_neg (by omega : ¬(1 ≤ label p ∧ label p ≤ 0 ∧
      100 / spaceX ≤ (compSize w h label (label p) : ℚ)))]
    rfl
  | succ n ih =>
    intro f p
    rw [List.range_succ, List.foldl_append]
    show ccStep w h label spaceX ((List.range n).foldl (ccStep w h label spaceX) f) n p = _
    rw [ccStep]
    by_cases hsz : 100 / spaceX ≤ (compSize w h label (n + 1) : ℚ)
    · rw [if_pos hsz]
      by_cases hl : label p = n + 1
      · show (if label p = n + 1 then 1 else _) = _
        rw [if_pos hl, if_pos ⟨by omega, by omega, by rw [hl]; exact hsz⟩]
      · show (if label p = n + 1 then 1 else _) = _
        rw [if_neg hl, ih f p]
        by_cases hc : 1 ≤ label p ∧ label p ≤ n ∧
            100 / spaceX ≤ (compSize w h label (label p) : ℚ)
        · rw [if_pos hc, if_pos ⟨hc.1, by omega, hc.2.2⟩]
        · rw [if_neg hc, if_neg ?_]
          intro hc2
          exact hc ⟨hc2.1, by omega, hc2.2.2⟩
    · rw [if_neg hsz, ih f p]
      by_cases hc : 1 ≤ label p ∧ label p ≤ n ∧
          100 / spaceX ≤ (compSize w h label (label p) : ℚ)
      · rw [if_pos hc, if_pos ⟨hc.1, by omega, hc.2.2⟩]
      · rw [if_neg hc, if_neg ?_]
        intro hc2
        by_cases hl : label p = n + 1
        · rw [hl] at hc2
          exact hsz hc2.2.2
        · exact hc ⟨hc2.1, by omega, hc2.2.2⟩

/-- C9: a pixel of the Connected-Component Filter output is 1 exactly when
its component label is one of the `nb` non-background components produced by
`cv2.connectedComponentsWithStats` (8-connectivity) and that component's
voxel count is at least `100 / space_x`; every other pixel is 0. -/
theorem claim_C9 (w h : ℕ) (label : ℕ × ℕ → ℕ) (nb : ℕ) (spaceX : ℚ) (p : ℕ × ℕ) :
    (ccFilter w h label nb spaceX p = 1 ↔
      label p ≠ 0 ∧ label p ≤ nb ∧ 100 / spaceX ≤ (compSize w h label (label p) : ℚ)) ∧
    (ccFilter w h label nb spaceX p = 0 ∨ ccFilter w h label nb spaceX p = 1) := by
  have hx := ccFilter_aux w h label spaceX nb (fun _ => 0) p
  rw [ccFilter, hx]
  by_cases hc : 1 ≤ label p ∧ label p ≤ nb ∧
      100 / spaceX ≤ (compSize w h label (label p) : ℚ)
  · rw [if_pos hc]
    exact ⟨⟨fun _ => ⟨by omega, hc.2.1, hc.2.2⟩, fun _ => rfl⟩, Or.inr rfl⟩
  · rw [if_neg hc]
    refine ⟨⟨fun h0 => absurd h0 (by omega), fun hcc => absurd ⟨by omega, hcc.2.1, hcc.2.2⟩ hc⟩,
      Or.inl rfl⟩

lemma foldl_min_le_self (t : List ℕ) : ∀ a : ℕ, t.foldl min a ≤ a := by
  induction t with
  | nil => intro a; exact le_refl a
  | cons b s ih =>
    intro a
    exact le_trans (ih (min a b)) (min_le_left a b)

lemma foldl_min_le_mem (t : List ℕ) : ∀ a x, x ∈ t → t.foldl min a ≤ x := by
  induction t with
  | nil => intro a x hx; exact absurd hx (List.not_mem_nil x)
  | cons b s ih =>
    intro a x hx
    rcases List.mem_cons.mp hx with rfl | hx2
    · exact le_trans (foldl_min_le_self s (min a x)) (min_le_right a x)
    · exact ih (min a b) x hx2

lemma listMinN_le {l : List ℕ} {x : ℕ} (hx : x ∈ l) : listMinN l ≤ x := by
  cases l with
  | nil => exact absurd hx (List.not_mem_nil x)
  | cons a t =>
    rcases List.mem_cons.mp hx with rfl | hx2
    · exact foldl_min_le_self t x
    · exact foldl_min_le_mem t a x hx2

lemma self_le_foldl_max (t : List ℕ) : ∀ a : ℕ, a ≤ t.foldl max a := by
  induction t with
  | nil => intro a; exact le_refl a
  | cons b s ih =>
    intro a
    exact le_trans (le_max_left a b) (ih (max a b))

lemma mem_le_foldl_max (t : List ℕ) : ∀ a x, x ∈ t → x ≤ t.foldl max a := by
  induction t with
  | nil => intro a x hx; exact absurd hx (List.not_mem_nil x)
  | cons b s ih =>
    intro a x hx
    rcases List.mem_cons.mp hx with rfl | hx2
    · exact le_trans (le_max_right a x) (self_le_foldl_max s (max a x))
    · exact ih (max a b) x hx2

lemma le_listMaxN {l : List ℕ} {x : ℕ} (hx : x ∈ l) : x ≤ listMaxN l := by
  cases l with
  | nil => exact absurd hx (List.not_mem_nil x)
  | cons a t =>
    rcases List.mem_cons.mp hx with rfl | hx2
    · exact self_le_foldl_max t x
    · exact mem_le_foldl_max t a x hx2

lemma mem_coordList {v : Volume3} {p : ℕ × ℕ × ℕ} (hp : p ∈ v.coordList) :
    p.1 < v.s0 ∧ p.2.1 < v.s1 ∧ p.2.2 < v.s2 := by
  rw [Volume3.coordList] at hp
  simp only [List.mem_flatMap, List.mem_map, List.mem_range] at hp
  obtain ⟨x, hx, y, hy, z, hz, rfl⟩ := hp
  exact ⟨hx, hy, hz⟩

lemma fgList_lt {v : Volume3} {p : ℕ × ℕ × ℕ} (hp : p ∈ v.fgList) :
    p.1 < v.s0 ∧ p.2.1 < v.s1 ∧ p.2.2 < v.s2 :=
  mem_coordList (List.mem_of_mem_filter hp)

lemma one_le_margin {s : ℚ} (h0 : 0 < s) (h10 : s ≤ 10) : 1 ≤ pyInt (10 / s) := by
  have hq : (0 : ℚ) ≤ 10 / s := by positivity
  rw [pyInt, if_pos hq, Rat.le_floor]
  push_cast
  rw [one_le_div h0]
  exact h10

lemma axis_ok {coords : List ℕ} {bound : ℕ} {d : ℤ} (hd : 1 ≤ d)
    (hin : ∀ x ∈ coords, x < bound) :
    0 ≤ clampLo (listMinN coords) d ∧ clampHi (listMaxN coords) d bound ≤ (bound : ℤ) ∧
      ∀ x ∈ coords, clampLo (listMinN coords) d ≤ (x : ℤ) ∧
        (x : ℤ) < clampHi (listMaxN coords) d bound := by
  refine ⟨?_, ?_, ?_⟩
  · rw [clampLo]; split_ifs with h1 <;> omega
  · rw [clampHi]; split_ifs with h1 <;> omega
  · intro x hx
    have h1 : listMinN coords ≤ x := listMinN_le hx
    have h2 : x ≤ listMaxN coords := le_listMaxN hx
    have h3 : x < bound := hin x hx
    constructor
    · rw [clampLo]; split_ifs with h4 <;> omega
    · rw [clampHi]; split_ifs with h4 <;> omega

/-- C6: for every mask whose maximum exceeds 1 and whose minimum is below 0
simultaneously, `crop_with_mask` returns null for both output names, writes
no files, emits the skip log message, and raises no error. -/
theorem claim_C6 (mask : Volume3) (i0 i1 i2 : ℕ) (sx sy sz : ℚ)
    (h1 : 1 < mask.maskMax) (h2 : mask.maskMin < 0) :
    crop_with_mask mask i0 i1 i2 sx sy sz = MaskCropOutcome.invalidMask ∧
    filesWritten (crop_with_mask mask i0 i1 i2 sx sy sz) = 0 ∧
    returnsNullPair (crop_with_mask mask i0 i1 i2 sx sy sz) = true ∧
    raisesError (crop_with_mask mask i0 i1 i2 sx sy sz) = false ∧
    logsSkipMessage (crop_with_mask mask i0 i1 i2 sx sy sz) = true := by
  have hc : crop_with_mask mask i0 i1 i2 sx sy sz = MaskCropOutcome.invalidMask := by
    simp only [crop_with_mask]
    rw [if_pos ⟨h1, h2⟩]
  rw [hc]
  exact ⟨rfl, rfl, rfl, rfl, rfl⟩

/-- C10: a mask that passes the plausibly-binary check but contains no voxel
equal to 1 makes `crop_with_mask` fail (the `ValueError` of `np.min` on the
empty `np.where(maskData == 1)` coordinate array) instead of returning null
outputs or skipping gracefully: such masks are outside the function's
effective domain even though the validity check accepts them. -/
theorem claim_C10 (mask : Volume3) (i0 i1 i2 : ℕ) (sx sy sz : ℚ)
    (h1 : ¬(1 < mask.maskMax ∧ mask.maskMin < 0)) (h2 : mask.fgList = []) :
    crop_with_mask mask i0 i1 i2 sx sy sz = MaskCropOutcome.emptyFgError ∧
    raisesError (crop_with_mask mask i0 i1 i2 sx sy sz) = true ∧
    returnsNullPair (crop_with_mask mask i0 i1 i2 sx sy sz) = false ∧
    filesWritten (crop_with_mask mask i0 i1 i2 sx sy sz) = 0 := by
  have hc : crop_with_mask mask i0 i1 i2 sx sy sz = MaskCropOutcome.emptyFgError := by
    simp only [crop_with_mask]
    rw [if_neg h1, if_pos h2]
  rw [hc]
  exact ⟨rfl, rfl, rfl, rfl⟩

/-- C5 (amended): provided each axis spacing is at most 10 physical units
(so the voxel margin `int(10 / spacing)` is at least one voxel), for every
binary mask with at least one voxel equal to 1 the crop box computed by
`crop_with_mask` contains every `mask == 1` voxel, does not exceed the
volume's extents, and both the cropped image and cropped mask are written.
The spacing bound is forced by `claim_C5_cex`: with spacing above 10 the
margin is zero voxels and the half-open upper bound excludes the largest
foreground voxel. -/
theorem claim_C5_amended (mask : Volume3) (sx sy sz : ℚ)
    (hx0 : 0 < sx) (hx10 : sx ≤ 10) (hy0 : 0 < sy) (hy10 : sy ≤ 10)
    (hz0 : 0 < sz) (hz10 : sz ≤ 10)
    (hvalid : ¬(1 < mask.maskMax ∧ mask.maskMin < 0))
    (hfg : mask.fgList ≠ []) :
    outcomeOK (crop_with_mask mask mask.s0 mask.s1 mask.s2 sx sy sz)
      mask.fgList mask.s0 mask.s1 mask.s2 ∧
    filesWritten (crop_with_mask mask mask.s0 mask.s1 mask.s2 sx sy sz) = 2 := by
  have hcrop : crop_with_mask mask mask.s0 mask.s1 mask.s2 sx sy sz =
      MaskCropOutcome.cropped
        (clampLo (listMinN (mask.fgList.map fun p => p.1)) (pyInt (10 / sx)),
         clampHi (listMaxN (mask.fgList.map fun p => p.1)) (pyInt (10 / sx)) mask.s0)
        (clampLo (listMinN (mask.fgList.map fun p => p.2.1)) (pyInt (10 / sy)),
         clampHi (listMaxN (mask.fgList.map fun p => p.2.1)) (pyInt (10 / sy)) mask.s1)
        (clampLo (listMinN (mask.fgList.map fun p => p.2.2)) (pyInt (10 / sz)),
         clampHi (listMaxN (mask.fgList.map fun p => p.2.2)) (pyInt (10 / sz)) mask.s2) := by
    simp only [crop_with_mask]
    rw [if_neg hvalid, if_neg hfg]
  have hax := @axis_ok (mask.fgList.map fun p => p.1) mask.s0 (pyInt (10 / sx))
    (one_le_margin hx0 hx10)
    (fun x hx => by
      obtain ⟨p, hp, rfl⟩ := List.mem_map.mp hx
      exact (fgList_lt hp).1)
  have hay := @axis_ok (mask.fgList.map fun p => p.2.1) mask.s1 (pyInt (10 / sy))
    (one_le_margin hy0 hy10)
    (fun y hy => by
      obtain ⟨p, hp, rfl⟩ := List.mem_map.mp hy
      exact (fgList_lt hp).2.1)
  have haz := @axis_ok (mask.fgList.map fun p => p.2.2) mask.s2 (pyInt (10 / sz))
    (one_le_margin hz0 hz10)
    (fun z hz => by
      obtain ⟨p, hp, rfl⟩ := List.mem_map.mp hz
      exact (fgList_lt hp).2.2)
  rw [hcrop]
  refine ⟨?_, rfl⟩
  simp only [outcomeOK]
  refine ⟨?_, hax.1, hax.2.1, hay.1, hay.2.1, haz.1, haz.2.1⟩
  intro p hp
  have h1 := hax.2.2 p.1 (List.mem_map.mpr ⟨p, hp, rfl⟩)
  have h2 := hay.2.2 p.2.1 (List.mem_map.mpr ⟨p, hp, rfl⟩)
  have h3 := haz.2.2 p.2.2 (List.mem_map.mpr ⟨p, hp, rfl⟩)
  exact ⟨h1.1, h1.2, h2.1, h2.2, h3.1, h3.2⟩

/-- C4 (amended): for every detected region the x and y slice bounds used by
the Cropper lie within the volume's extents, and the z bounds also lie
within the extents provided the mid-depth index still equals its initial
value `ceil(dimZ / 2)` (no mid-depth shift happened during rotation
retries).  The restriction on z is forced by `claim_C4_cex`: after two or
more retries `mean_Z` is shifted and the unclamped z lower bound can become
negative. -/
theorem claim_C4_amended (g : Geometry) (p : ℕ × ℕ) (indY : ℕ) (meanZ : ℤ)
    (_hx1 : p.1 < g.dimX) (hx2 : p.2 < g.dimX) (hy : indY ≤ g.dimY) :
    xyInRange (cropSliceBounds p indY (minSizeYg g) meanZ (minSizeZg g)) g.dimX g.dimY ∧
    (meanZ = meanZ0 g →
      boundsInRange (cropSliceBounds p indY (minSizeYg g) meanZ (minSizeZg g))
        (g.dimX, g.dimY, g.dimZ)) := by
  have hmz : minSizeZg g ≤ g.dimZ := Nat.min_le_right _ _
  constructor
  · simp only [xyInRange, cropSliceBounds]
    split_ifs with h1 <;> refine ⟨by omega, by omega, by omega, by omega⟩
  · intro hmean
    subst hmean
    simp only [boundsInRange, cropSliceBounds, meanZ0]
    split_ifs with h1 <;>
      refine ⟨by omega, by omega, by omega, by omega, by omega, by omega⟩

lemma orientGo_spec (o : ScanOracle) :
    ∀ (k : ℕ) (st : WoState),
      st.counter ≤ (orientGo o k st).counter ∧
      (orientGo o k st).counter ≤ st.counter + k ∧
      (orientGo o k st).angle =
        st.angle - 2 * (((orientGo o k st).counter : ℤ) - (st.counter : ℤ)) ∧
      (orientGo o k st).meanZ =
        st.meanZ - 10 * ((((orientGo o k st).counter / 2 : ℕ) : ℤ) -
          ((st.counter / 2 : ℕ) : ℤ)) := by
  intro k
  induction k with
  | zero =>
    intro st
    by_cases hs : stableCheck (scanOnce o st.angle st.meanZ st.indY st.xx).1
    · have hr : orientGo o 0 st =
          { st with
            indY := (scanOnce o st.angle st.meanZ st.indY st.xx).2.1
            xx := (scanOnce o st.angle st.meanZ st.indY st.xx).2.2 } := by
        simp only [orientGo, if_pos hs]
      rw [hr]
      dsimp only
      refine ⟨le_refl _, by omega, by ring, by ring⟩
    · have hr : orientGo o 0 st =
          { st with
            indY := (scanOnce o st.angle st.meanZ st.indY st.xx).2.1
            xx := (scanOnce o st.angle st.meanZ st.indY st.xx).2.2
            proccess := false } := by
        simp only [orientGo, if_neg hs]
      rw [hr]
      dsimp only
      refine ⟨le_refl _, by omega, by ring, by ring⟩
  | succ k ih =>
    intro st
    by_cases hs : stableCheck (scanOnce o st.angle st.meanZ st.indY st.xx).1
    · have hr : orientGo o (k + 1) st =
          { st with
            indY := (scanOnce o st.angle st.meanZ st.indY st.xx).2.1
            xx := (scanOnce o st.angle st.meanZ st.indY st.xx).2.2 } := by
        simp only [orientGo, if_pos hs]
      rw [hr]
      dsimp only
      refine ⟨le_refl _, by omega, by ring, by ring⟩
    · have hr : orientGo o (k + 1) st = orientGo o k
          { counter := st.counter + 1
            angle := st.angle - 2
            meanZ := if (st.counter + 1) % 2 = 0 then st.meanZ - 10 else st.meanZ
            indY := none
            xx := (scanOnce o st.angle st.meanZ st.indY st.xx).2.2
            process := st.process
            proccess := st.proccess } := by
        simp only [orientGo, if_neg hs]
      rw [hr]
      have h := ih
        { counter := st.counter + 1
          angle := st.angle - 2
          meanZ := if (st.counter + 1) % 2 = 0 then st.meanZ - 10 else st.meanZ
          indY := none
          xx := (scanOnce o st.angle st.meanZ st.indY st.xx).2.2
          process := st.process
          proccess := st.proccess }
      dsimp only at h
      obtain ⟨h1, h2, h3, h4⟩ := h
      refine ⟨by omega, by omega, by rw [h3]; push_cast; ring, ?_⟩
      by_cases hpar : (st.counter + 1) % 2 = 0
      · rw [if_pos hpar] at h4 ⊢
        rw [h4]
        have hdiv : (st.counter + 1) / 2 = st.counter / 2 + 1 := by omega
        rw [hdiv]
        push_cast
        ring
      · rw [if_neg hpar] at h4 ⊢
        rw [h4]
        have hdiv : (st.counter + 1) / 2 = st.counter / 2 := by omega
        rw [hdiv]

/-- C8: for every detection oracle and start state, the orientation loop
terminates with at most 8 rotation retries: the final retry counter is at
most 8, the final working angle is exactly `-2` degrees per retry taken
(hence at least `-16`, a total correction magnitude of at most 16 degrees),
and the mid-depth index has been shifted by 10 exactly once per two retries
taken. -/
theorem claim_C8 (o : ScanOracle) (mz : ℤ) (iY : Option ℕ) (xx0 : Option (List ℕ)) :
    (orientLoop o ⟨0, 0, mz, iY, xx0, true, true⟩).counter ≤ 8 ∧
    (orientLoop o ⟨0, 0, mz, iY, xx0, true, true⟩).angle =
      -2 * ((orientLoop o ⟨0, 0, mz, iY, xx0, true, true⟩).counter : ℤ) ∧
    -16 ≤ (orientLoop o ⟨0, 0, mz, iY, xx0, true, true⟩).angle ∧
    (orientLoop o ⟨0, 0, mz, iY, xx0, true, true⟩).meanZ =
      mz - 10 * (((orientLoop o ⟨0, 0, mz, iY, xx0, true, true⟩).counter / 2 : ℕ) : ℤ) := by
  have hloop : orientLoop o ⟨0, 0, mz, iY, xx0, true, true⟩ =
      orientGo o 8 ⟨0, 0, mz, iY, xx0, true, true⟩ := rfl
  have h := orientGo_spec o 8 ⟨0, 0, mz, iY, xx0, true, true⟩
  dsimp only at h
  obtain ⟨h1, h2, h3, h4⟩ := h
  rw [hloop]
  refine ⟨by omega, by omega, by omega, by omega⟩

/-- C1 (code bug): at the reachable naming-stage edge list `xxC1` with four
detected regions, the Subject Count Reconciler removes the two names
spanned by the `hole_dimension = 3` gap but counts the gap once in
`hole_found`, so the final reconciliation removes one name too many: the
reconciled list has 3 names for 4 regions (the claim requires 4 names and
`6 - 4 = 2` total removals), and the output loop then raises `IndexError`
at `image_names[3]`. -/
theorem claim_C1_bug :
    accurateNaming xxC1 63 567 17 = Except.ok ["mouse_01", "mouse_05", "mouse_06"] ∧
    xxC1.length / 2 = 4 ∧
    cropGo ["mouse_01", "mouse_05", "mouse_06"] (some 80) 30 21 42 (pairList xxC1) 0 =
      Except.error errIndex := by
  refine ⟨?_, ?_, ?_⟩ <;> with_unfolding_all rfl

/-- C2 (code bug): on a volume whose per-offset counts never stabilise the
loop exhausts all 8 retries, but line 210 assigns the misspelt variable
`proccess`, so `process` remains true and a cropped volume is still
emitted -- the model returns one output record instead of the empty list
the claim requires. -/
theorem claim_C2_bug :
    (orientLoop o2 (initState g2)).counter = 8 ∧
    (orientLoop o2 (initState g2)).proccess = false ∧
    (orientLoop o2 (initState g2)).process = true ∧
    crop_wo_mask_model g2 o2 false =
      Except.ok [("subject_01", ((0, 1), (20, 50), (-40, 2)))] := by
  refine ⟨?_, ?_, ?_, ?_⟩ <;> with_unfolding_all rfl

/-- C3 (code bug): when every thresholded slice at every offset is
all-background, the loop stabilises immediately (the count list `[0,...,0]`
passes the stability check) with zero detections, but `xx` was never
assigned, so line 219 (`len(xx)`) raises `NameError` instead of completing
with an empty output list as the claim requires. -/
theorem claim_C3_bug :
    crop_wo_mask_model g3 o3 true = Except.error errName ∧
    stableCheck [0, 0, 0, 0, 0] = true ∧
    (orientLoop o3 (initState g3)).counter = 0 := by
  refine ⟨?_, ?_, ?_⟩ <;> with_unfolding_all rfl

/-- Counterexample for C4 as stated: a run on the 100 × 100 × 42 volume with
`space_z = 1.5` that stabilises after two rotation retries has its mid-depth
shifted to 11, and the z slice bounds of its single region are `[-4, 26)` --
the lower bound is negative, outside the volume's extents. -/
theorem claim_C4_cex :
    crop_wo_mask_model g4 o4 false =
      Except.ok [("subject_01", ((0, 3), (50, 80), (-4, 26)))] ∧
    ¬ boundsInRange ((0, 3), (50, 80), (-4, 26)) (100, 100, 42) := by
  constructor
  · with_unfolding_all rfl
  · unfold boundsInRange
    decide

set_option maxRecDepth 8000 in
/-- Counterexample for C5 as stated: with spacing 20 on every axis the
margin `int(10 / 20)` is zero, and the crop box `[1,1) × [1,1) × [1,1)`
computed for the mask whose only foreground voxel is `(1,1,1)` does not
contain that voxel. -/
theorem claim_C5_cex :
    crop_with_mask mask3 3 3 3 20 20 20 = MaskCropOutcome.cropped (1, 1) (1, 1) (1, 1) ∧
    (1, 1, 1) ∈ mask3.fgList ∧
    ¬ boxContains ((1, 1), (1, 1), (1, 1)) (1, 1, 1) := by
  refine ⟨by with_unfolding_all rfl, by with_unfolding_all decide, ?_⟩
  unfold boxContains
  decide

/-- Witness for C6 at the concrete two-voxel mask with values 2 and -1. -/
theorem claim_C6_witness :
    crop_with_mask maskBad 2 1 1 1 1 1 = MaskCropOutcome.invalidMask ∧
    filesWritten (crop_with_mask maskBad 2 1 1 1 1 1) = 0 ∧
    returnsNullPair (crop_with_mask maskBad 2 1 1 1 1 1) = true ∧
    raisesError (crop_with_mask maskBad 2 1 1 1 1 1) = false ∧
    logsSkipMessage (crop_with_mask maskBad 2 1 1 1 1 1) = true :=
  claim_C6 maskBad 2 1 1 1 1 1 (by with_unfolding_all decide) (by with_unfolding_all decide)

/-- Witness for C10 at the all-zero 2 × 2 × 2 mask. -/
theorem claim_C10_witness :
    crop_with_mask maskZero 2 2 2 1 1 1 = MaskCropOutcome.emptyFgError ∧
    raisesError (crop_with_mask maskZero 2 2 2 1 1 1) = true ∧
    returnsNullPair (crop_with_mask maskZero 2 2 2 1 1 1) = false ∧
    filesWritten (crop_with_mask maskZero 2 2 2 1 1 1) = 0 :=
  claim_C10 maskZero 2 2 2 1 1 1 (by with_unfolding_all decide) (by with_unfolding_all decide)

set_option maxRecDepth 100000 in
/-- Witness for C5 at the single-voxel 3 × 3 × 3 mask with unit spacing. -/
theorem claim_C5_amended_witness :
    outcomeOK (crop_with_mask mask3 mask3.s0 mask3.s1 mask3.s2 1 1 1)
      mask3.fgList mask3.s0 mask3.s1 mask3.s2 ∧
    filesWritten (crop_with_mask mask3 mask3.s0 mask3.s1 mask3.s2 1 1 1) = 2 :=
  claim_C5_amended mask3 1 1 1 (by with_unfolding_all decide) (by with_unfolding_all decide)
    (by with_unfolding_all decide) (by with_unfolding_all decide)
    (by with_unfolding_all decide) (by with_unfolding_all decide)
    (by with_unfolding_all decide) (by with_unfolding_all decide)

/-- Witness for C4 at region `(0, 3)`, `indY = 80` and the unshifted
mid-depth 21 of the 630 × 100 × 42 unit-spacing volume. -/
theorem claim_C4_amended_witness :
    xyInRange (cropSliceBounds (0, 3) 80 (minSizeYg g2) 21 (minSizeZg g2)) g2.dimX g2.dimY ∧
    (21 = meanZ0 g2 →
      boundsInRange (cropSliceBounds (0, 3) 80 (minSizeYg g2) 21 (minSizeZg g2))
        (g2.dimX, g2.dimY, g2.dimZ)) :=
  claim_C4_amended g2 (0, 3) 80 21 (by with_unfolding_all decide)
    (by with_unfolding_all decide) (by with_unfolding_all decide)
